import Mathlib

set_option maxRecDepth 8000

/-!
Shallow embedding of src/plexarr/utils.py: the M3U playlist parser
m3u_to_json and the XMLTV guide generator gen_xmltv_xml.

Modelling conventions: Python strings are Lean String / List Char
(newlines are the LF character); Python dicts are insertion-ordered
association lists; functions that can raise return Option, with none for
a raised exception.  The regular expressions of the source are embedded
as explicit matchers that follow the alternation order, the greedy
backtracking and the finditer scan of the re module (the digit class is
modelled as the ASCII digits).
-/

/-- Helper for str.splitlines: walk the characters, accumulating the
current line in reverse; a trailing newline does not open a final empty
line, mirroring Python. -/
def splitlinesAux : List Char → List Char → List (List Char)
  | [], acc => [acc.reverse]
  | c :: rest, acc =>
    if c = '\n' then
      acc.reverse :: (match rest with
        | [] => []
        | _ :: _ => splitlinesAux rest [])
    else splitlinesAux rest (c :: acc)

/-- Python str.splitlines (line separator model: the LF character). -/
def splitlinesCh (cs : List Char) : List (List Char) :=
  match cs with
  | [] => []
  | _ :: _ => splitlinesAux cs []

/-- Elements at the even indices: the Python slice l[0::2]. -/
def evens {α : Type} : List α → List α
  | [] => []
  | [x] => [x]
  | x :: _ :: rest => x :: evens rest

/-- Elements at the odd indices: the Python slice l[1::2]. -/
def odds {α : Type} (l : List α) : List α := evens (l.drop 1)

/-- The line pairing zip(temp[0::2], temp[1::2]) from m3u_to_json. -/
def pairLines {α : Type} (l : List α) : List (α × α) :=
  List.zip (evens l) (odds l)

/-- Consecutive non-overlapping pairs, dropping a trailing unpaired
element; proved below to coincide with pairLines. -/
def consPairs {α : Type} : List α → List (α × α)
  | a :: b :: rest => (a, b) :: consPairs rest
  | _ => []

/-- Match a literal pattern at the current position, returning the rest
of the input on success. -/
def dropLit : List Char → List Char → Option (List Char)
  | [], s => some s
  | _ :: _, [] => none
  | p :: ps, c :: cs => if p = c then dropLit ps cs else none

/-- The regex dot never matches the newline character. -/
def notNl (c : Char) : Bool := c != '\n'

/-- The character class excluding the double quote. -/
def notQuote (c : Char) : Bool := c != '"'

/-- The literal part of the alternative for the EXTINF duration. -/
def litEXTINF : List Char := ['#', 'E', 'X', 'T', 'I', 'N', 'F', ':']

/-- Alternative 1 of regex_stream, the duration: literal EXTINF marker
followed by one or more digits, captured by the group ext_inf.  Returns
the group name, the captured text and the length of the whole match. -/
def matchExtinf (s : List Char) : Option (String × String × Nat) :=
  match dropLit litEXTINF s with
  | none => none
  | some rest =>
    match rest.takeWhile Char.isDigit with
    | [] => none
    | d :: ds =>
      some ("ext_inf", String.mk (d :: ds), litEXTINF.length + (d :: ds).length)

/-- One quoted attribute alternative: the literal attribute name with the
equals sign and opening quote, one or more non-quote characters (the
capture), then the closing quote. -/
def matchQuoted (key : String) (lit : List Char) (s : List Char) :
    Option (String × String × Nat) :=
  match dropLit lit s with
  | none => none
  | some rest =>
    match rest.takeWhile notQuote with
    | [] => none
    | v :: vs =>
      match rest.drop (v :: vs).length with
      | '"' :: _ =>
        some (key, String.mk (v :: vs), lit.length + (v :: vs).length + 1)
      | _ => none

def litChannelID : List Char :=
  ['c', 'h', 'a', 'n', 'n', 'e', 'l', 'I', 'D', '=', '"']

def litTvgChno : List Char :=
  ['t', 'v', 'g', '-', 'c', 'h', 'n', 'o', '=', '"']

def litTvgName : List Char :=
  ['t', 'v', 'g', '-', 'n', 'a', 'm', 'e', '=', '"']

def litTvgId : List Char :=
  ['t', 'v', 'g', '-', 'i', 'd', '=', '"']

def litTvgLogo : List Char :=
  ['t', 'v', 'g', '-', 'l', 'o', 'g', 'o', '=', '"']

def litGroupTitle : List Char :=
  ['g', 'r', 'o', 'u', 'p', '-', 't', 'i', 't', 'l', 'e', '=', '"']

/-- Alternative 8: a comma followed by the rest of the line, captured by
the group chan_name (the dot of the regex stops at a newline). -/
def matchComma (s : List Char) : Option (String × String × Nat) :=
  match s with
  | ',' :: rest =>
    some ("chan_name", String.mk (rest.takeWhile notNl),
          1 + (rest.takeWhile notNl).length)
  | _ => none

/-- One arbitrary non-newline character (the unescaped regex dot), then
the continuation; lengths are threaded through. -/
def anyNl (k : List Char → Option Nat) : List Char → Option Nat
  | [] => none
  | c :: cs => if c = '\n' then none else (k cs).map (· + 1)

/-- A literal, then the continuation. -/
def litK (p : List Char) (k : List Char → Option Nat) (s : List Char) :
    Option Nat :=
  match dropLit p s with
  | none => none
  | some rest => (k rest).map (· + p.length)

/-- Greedy backtracking for one-or-more digits followed by a
continuation: try consuming i digits, for i from the full digit run down
to one. -/
def tryDigits (s : List Char) (k : List Char → Option Nat) : Nat → Option Nat
  | 0 => none
  | i + 1 =>
    match k (s.drop (i + 1)) with
    | some m => some (i + 1 + m)
    | none => tryDigits s k i

/-- The digit-run quantifier of the stream URL alternative. -/
def digitsK (k : List Char → Option Nat) (s : List Char) : Option Nat :=
  tryDigits s k (s.takeWhile Char.isDigit).length

/-- A trailing greedy dot-star with nothing after it: consume the rest of
the line. -/
def restOfLine (s : List Char) : Option Nat :=
  some (s.takeWhile notNl).length

def litHttp : List Char := ['h', 't', 't', 'p', ':', '/', '/']

def litStream : List Char := ['/', 's', 't', 'r', 'e', 'a', 'm', '/']

/-- Alternative 9, the stream URL: http://, four digit runs separated by
the unescaped regex dot (any non-newline character), a colon, a port
digit run, /stream/, then the rest of the line.  The group stream_url
captures the whole match. -/
def streamUrlLen : List Char → Option Nat :=
  litK litHttp (digitsK (anyNl (digitsK (anyNl (digitsK (anyNl (digitsK
    (litK [':'] (digitsK (litK litStream restOfLine))))))))))

def matchStreamUrl (s : List Char) : Option (String × String × Nat) :=
  match streamUrlLen s with
  | none => none
  | some n => some ("stream_url", String.mk (s.take n), n)

/-- The nine alternatives of regex_stream tried in order (regex
alternation is leftmost-first); each match reports the one participating
named group, its captured text and the number of characters consumed. -/
def matchAlt (s : List Char) : Option (String × String × Nat) :=
  match matchExtinf s with
  | some r => some r
  | none =>
  match matchQuoted "channelID" litChannelID s with
  | some r => some r
  | none =>
  match matchQuoted "tvg_chno" litTvgChno s with
  | some r => some r
  | none =>
  match matchQuoted "tvg_name" litTvgName s with
  | some r => some r
  | none =>
  match matchQuoted "tvg_id" litTvgId s with
  | some r => some r
  | none =>
  match matchQuoted "tvg_logo" litTvgLogo s with
  | some r => some r
  | none =>
  match matchQuoted "group_title" litGroupTitle s with
  | some r => some r
  | none =>
  match matchComma s with
  | some r => some r
  | none => matchStreamUrl s

/-- The re.finditer scan, fueled: each step either yields a match (all
alternatives consume at least one character) and resumes after it, or
advances one character; the input length is always enough fuel. -/
def finditerAux : Nat → List Char → List (String × String)
  | 0, _ => []
  | _ + 1, [] => []
  | fuel + 1, c :: cs =>
    match matchAlt (c :: cs) with
    | some (k, v, n) =>
      (k, v) :: finditerAux fuel (List.drop (max n 1) (c :: cs))
    | none => finditerAux fuel cs

/-- All matches of regex_stream in the text, in scan order. -/
def finditer (s : List Char) : List (String × String) :=
  finditerAux s.length s

/-- Python dict insertion: replace the value in place when the key
exists, otherwise append. -/
def dictInsert (d : List (String × String)) (k v : String) :
    List (String × String) :=
  match d with
  | [] => [(k, v)]
  | (k0, v0) :: rest =>
    if k0 = k then (k, v) :: rest else (k0, v0) :: dictInsert rest k v

/-- Python dict lookup. -/
def dictLookup (d : List (String × String)) (k : String) : Option String :=
  match d with
  | [] => none
  | (k0, v) :: rest => if k0 = k then some v else dictLookup rest k

/-- One step of the dict comprehension body: the truthiness filter drops
empty captures (the None entries of groupdict are not represented, since
every match participates in exactly one named group). -/
def entryStep (d : List (String × String)) (kv : String × String) :
    List (String × String) :=
  if kv.2 = "" then d else dictInsert d kv.1 kv.2

/-- The dict comprehension building one StreamEntry from the matches. -/
def buildEntry (ms : List (String × String)) : List (String × String) :=
  ms.foldl entryStep []

/-- The two-line window: the pair joined with a newline. -/
def lineWindow (pr : List Char × List Char) : List Char :=
  pr.1 ++ '\n' :: pr.2

/-- One StreamEntry from one line pair. -/
def mkEntry (pr : List Char × List Char) : List (String × String) :=
  buildEntry (finditer (lineWindow pr))

/-- Greedy dot-star before a continuation: try the capture lengths from
the limit (the non-newline run) down to zero, longest first, returning
the captured text. -/
def tryStar {β : Type} (s : List Char) (k : List Char → Option β) :
    Nat → Option (List Char × β)
  | 0 => (k s).map (fun b => (([] : List Char), b))
  | i + 1 =>
    match k (s.drop (i + 1)) with
    | some b => some (s.take (i + 1), b)
    | none => tryStar s k i

/-- The closing-quote test after the second group of regex_info. -/
def closeQuote : List Char → Option Unit
  | '"' :: _ => some ()
  | _ => none

/-- The second greedy group of regex_info followed by the closing quote. -/
def headerTail2 (r : List Char) : Option (List Char) :=
  match tryStar r closeQuote (r.takeWhile notNl).length with
  | none => none
  | some (g2, _) => some g2

def litXTvg : List Char :=
  ['"', ' ', 'x', '-', 't', 'v', 'g', '-', 'u', 'r', 'l', '=', '"']

/-- The first greedy group of regex_info, the middle literal, then the
second group. -/
def headerTail1 (r : List Char) : Option (List Char × List Char) :=
  tryStar r (fun r2 =>
      match dropLit litXTvg r2 with
      | none => none
      | some r3 => headerTail2 r3)
    (r.takeWhile notNl).length

def litEXTM3U : List Char :=
  ['#', 'E', 'X', 'T', 'M', '3', 'U', ' ', 'u', 'r', 'l', '-', 't', 'v',
   'g', '=', '"']

/-- The full regex_info pattern tried at one position. -/
def headerMatchAt (s : List Char) : Option (List Char × List Char) :=
  match dropLit litEXTM3U s with
  | none => none
  | some r1 => headerTail1 r1

/-- re.search of regex_info: try every start position left to right. -/
def headerSearch : List Char → Option (List Char × List Char)
  | [] => none
  | c :: cs =>
    match headerMatchAt (c :: cs) with
    | some r => some r
    | none => headerSearch cs

/-- A Python/JSON value as it occurs in the document m3u_to_json builds:
a string or the list of stream entries.  json.dumps is modelled as the
identity on this structured document. -/
inductive PyVal : Type where
  | str : String → PyVal
  | arr : List (List (String × String)) → PyVal
deriving DecidableEq

/-- m3u_to_json from src/plexarr/utils.py.  Returns none where the
Python function raises: on empty input (pop from an empty list) and on
header search failure (groupdict called on None). -/
def m3u_to_json (src : String) : Option (List (String × PyVal)) :=
  match splitlinesCh src.data with
  | [] => none
  | info :: body =>
    match headerSearch info with
    | none => none
    | some (u, x) =>
      some [("url_tvg", PyVal.str (String.mk u)),
            ("x_tvg_url", PyVal.str (String.mk x)),
            ("streams", PyVal.arr ((pairLines body).map mkEntry))]

/-- The streams member of the parsed document. -/
def lookupStreams : List (String × PyVal) →
    Option (List (List (String × String)))
  | [] => none
  | (k, v) :: rest =>
    if k = "streams" then
      match v with
      | PyVal.arr s => some s
      | PyVal.str _ => none
    else lookupStreams rest

/-- The list of parsed stream entries; empty when parsing fails. -/
def parseEntries (src : String) : List (List (String × String)) :=
  match m3u_to_json src with
  | none => []
  | some doc => (lookupStreams doc).getD []

/-- The body lines: everything after the header line. -/
def bodyLines (src : String) : List (List Char) :=
  (splitlinesCh src.data).drop 1

/-- Whether the first line of the source exists and matches the header
pattern somewhere in the line (re.search semantics). -/
def headerLineOk (src : String) : Bool :=
  match splitlinesCh src.data with
  | [] => false
  | info :: _ => (headerSearch info).isSome

/-- Helper for furl_origin: split the URL at the first occurrence of the
scheme separator, returning the text before it and after it. -/
def splitScheme (pat : List Char) (acc : List Char) :
    List Char → Option (List Char × List Char)
  | [] => none
  | c :: cs =>
    match dropLit pat (c :: cs) with
    | some rest => some (acc.reverse, rest)
    | none => splitScheme pat (c :: acc) cs

/-- A character ending the host:port part of a URL. -/
def hostEnd (c : Char) : Bool := c == '/' || c == '?' || c == '#'

/-- Modelled from the furl library used by gen_xmltv_xml: the origin
property of a URL, its scheme://host[:port] part without path, query or
fragment; a URL without the separator is modelled as having empty scheme
and host. -/
def furl_origin (url : String) : String :=
  match splitScheme [':', '/', '/'] [] url.data with
  | none => "://"
  | some (scheme, rest) =>
    String.mk scheme ++ "://" ++ String.mk (rest.takeWhile (fun c => !(hostEnd c)))

/-- The fixed prolog, DOCTYPE and opening tv tag of gen_xmltv_xml. -/
def xml_header (url : String) : String :=
  "<?xml version=\"1.0\" encoding=\"utf-8\" ?>\n<!DOCTYPE tv SYSTEM \"xmltv.dtd\">\n<tv generator-info-name=\"IPTV\" generator-info-url=\"" ++ furl_origin url ++ "\">\n"

def xml_footer : String := "</tv>\n"

/-- One channel element of gen_xmltv_xml; none models the ValueError the
4-name unpacking of channel.values() raises on any other arity.  Records
are modelled as their ordered value lists, since only positions matter. -/
def chanElem (c : List String) : Option String :=
  match c with
  | [tvg_id, tvg_name, tvg_logo, _epg_desc] =>
    some ("    <channel id=\"" ++ tvg_id ++ "\">\n        <display-name>" ++ tvg_name ++ "</display-name>\n        <icon src=\"" ++ tvg_logo ++ "\"/>\n    </channel>\n")
  | _ => none

/-- One programme element of gen_xmltv_xml, with the stray apostrophes
the source template really emits at the end of its lines; five values
take the first unpacking branch, any other count takes the 6-name
unpacking, which raises (none) unless exactly six values are present.
The sixth value epg_icon is unpacked but never emitted. -/
def progElem (p : List String) : Option String :=
  match p with
  | [tvg_id, epg_title, epg_start, epg_stop, epg_desc] =>
    some ("    <programme channel=\"" ++ tvg_id ++ "\" start=\"" ++ epg_start ++ "\" stop=\"" ++ epg_stop ++ "\">'\n        <title lang=\"en\">" ++ epg_title ++ "</title>'\n        <desc lang=\"en\">" ++ epg_desc ++ "</desc>'\n    </programme>'\n")
  | [tvg_id, epg_title, epg_start, epg_stop, epg_desc, _epg_icon] =>
    some ("    <programme channel=\"" ++ tvg_id ++ "\" start=\"" ++ epg_start ++ "\" stop=\"" ++ epg_stop ++ "\">'\n        <title lang=\"en\">" ++ epg_title ++ "</title>'\n        <desc lang=\"en\">" ++ epg_desc ++ "</desc>'\n    </programme>'\n")
  | _ => none

/-- The += accumulation loop over a record list. -/
def xmlConcat (f : List String → Option String) :
    List (List String) → String → Option String
  | [], acc => some acc
  | c :: rest, acc =>
    match f c with
    | none => none
    | some e => xmlConcat f rest (acc ++ e)

/-- gen_xmltv_xml from src/plexarr/utils.py; none models a raised
ValueError from record unpacking. -/
def gen_xmltv_xml (channels programs : List (List String)) (url : String) :
    Option String :=
  match xmlConcat chanElem channels "" with
  | none => none
  | some xml_channels =>
    match xmlConcat progElem programs "" with
    | none => none
    | some xml_programs =>
      some (xml_header url ++ xml_channels ++ xml_programs ++ xml_footer)

/-- Specification-side description for the overwrite claim: the value of
the rightmost finditer match binding the key to a non-empty capture. -/
def rightmostHit (ms : List (String × String)) (k : String) : Option String :=
  match ms with
  | [] => none
  | (k0, v) :: rest =>
    match rightmostHit rest k with
    | some w => some w
    | none => if k0 = k ∧ v ≠ "" then some v else none

/-- A header line matching regex_info with guide URLs u and x. -/
def hdrLine : String := "#EXTM3U url-tvg=\"u\" x-tvg-url=\"x\""

/-- A URL line matching the stream_url alternative. -/
def urlLine : String := "http://1.2.3.4:56/stream/go"

/-- A playlist with one line pair whose metadata line carries a digit
run d for the duration and a channel name after the comma. -/
def mkSrc (d : List Char) (name : String) : String :=
  hdrLine ++ "\n" ++ "#EXTINF:" ++ String.mk d ++ "," ++ name ++ "\n" ++ urlLine

/-- A playlist whose metadata line carries the conventional live-stream
duration -1. -/
def c5src : String :=
  "#EXTM3U url-tvg=\"u\" x-tvg-url=\"x\"\n#EXTINF:-1,Name\nhttp://1.2.3.4:56/stream/go"

/-- A playlist whose metadata line has two commas: one before the channel
name and one inside it. -/
def c7src : String :=
  "#EXTM3U url-tvg=\"u\" x-tvg-url=\"x\"\n#EXTINF:0,Hello, World\nhttp://1.2.3.4:56/stream/go"

/-- A playlist with one fully attributed line pair. -/
def c2src : String :=
  "#EXTM3U url-tvg=\"u\" x-tvg-url=\"x\"\n#EXTINF:7 tvg-id=\"one\" tvg-name=\"ONE\",One\nhttp://1.2.3.4:56/stream/one"

/-- A playlist whose body has three lines: one pair and one unpaired
trailing line. -/
def c3src : String :=
  "#EXTM3U url-tvg=\"u\" x-tvg-url=\"x\"\nA\nB\nC"

/-- A playlist with a single line pair, for the document-shape claim. -/
def c8src : String :=
  "#EXTM3U url-tvg=\"u\" x-tvg-url=\"x\"\n#EXTINF:1,N\nhttp://1.2.3.4:56/stream/n"

/-! Helper lemmas. -/

theorem strDataAppend : ∀ (a b : String), (a ++ b).data = a.data ++ b.data
  | ⟨_⟩, ⟨_⟩ => rfl

theorem strMkData : ∀ (s : String), String.mk s.data = s
  | ⟨_⟩ => rfl

theorem strMk_eq_empty {l : List Char} : String.mk l = "" ↔ l = [] := by
  constructor
  · intro h
    have h2 : (String.mk l).data = ("" : String).data := by rw [h]
    simpa using h2
  · intro h
    subst h; rfl

theorem strAppendAssoc : ∀ (a b c : String), a ++ b ++ c = a ++ (b ++ c)
  | ⟨la⟩, ⟨lb⟩, ⟨lc⟩ => congrArg String.mk (List.append_assoc la lb lc)

theorem strAppendEmpty : ∀ (s : String), s ++ "" = s
  | ⟨l⟩ => congrArg String.mk (List.append_nil l)

theorem strEmptyAppend : ∀ (s : String), "" ++ s = s
  | ⟨_⟩ => rfl

/-- Two-step list induction, used for the even/odd pairing lemmas. -/
theorem twoStep {α : Type} (P : List α → Prop) (h0 : P [])
    (h1 : ∀ a, P [a]) (h2 : ∀ a b l, P l → P (a :: b :: l)) :
    ∀ l, P l := by
  have key : ∀ (n : Nat) (l : List α), l.length ≤ n → P l := by
    intro n
    induction n with
    | zero =>
      intro l hl
      cases l with
      | nil => exact h0
      | cons a t => simp at hl
    | succ n ih =>
      intro l hl
      match l with
      | [] => exact h0
      | [a] => exact h1 a
      | a :: b :: rest =>
        exact h2 a b rest (ih rest (by simp at hl; omega))
  exact fun l => key l.length l le_rfl

theorem evens_cons {α : Type} (b : α) (l : List α) :
    evens (b :: l) = b :: evens (l.drop 1) := by
  cases l with
  | nil => rfl
  | cons c rest => rfl

/-- The zip of the even and odd slices is exactly the consecutive
non-overlapping pairing. -/
theorem pairLines_eq_consPairs {α : Type} : ∀ l : List α,
    pairLines l = consPairs l := by
  refine twoStep _ rfl (fun a => rfl) ?_
  intro a b l ih
  show List.zip (evens (a :: b :: l)) (odds (a :: b :: l)) = _
  have he : evens (a :: b :: l) = a :: evens l := rfl
  have ho : odds (a :: b :: l) = b :: evens (l.drop 1) := by
    show evens (b :: l) = _
    exact evens_cons b l
  rw [he, ho]
  show (a, b) :: List.zip (evens l) (evens (l.drop 1)) = _
  show (a, b) :: pairLines l = _
  rw [ih]
  rfl

/-- The consecutive pairing halves the length, rounding down. -/
theorem consPairs_length {α : Type} : ∀ l : List α,
    (consPairs l).length = l.length / 2 := by
  refine twoStep _ (show (0 : Nat) = 0 / 2 from rfl)
    (fun a => show (0 : Nat) = 1 / 2 from rfl) ?_
  intro a b l ih
  show (consPairs l).length + 1 = (l.length + 2) / 2
  rw [ih]
  omega

theorem finditerAux_nil : ∀ f : Nat, finditerAux f [] = [] := by
  intro f; cases f <;> rfl

/-- Any sufficient fuel computes the same finditer scan. -/
theorem finditerAux_fuel : ∀ (f1 f2 : Nat) (s : List Char),
    s.length ≤ f1 → s.length ≤ f2 → finditerAux f1 s = finditerAux f2 s := by
  intro f1
  induction f1 with
  | zero =>
    intro f2 s h1 h2
    have hs : s = [] := by
      cases s with
      | nil => rfl
      | cons a t => simp at h1
    rw [hs, finditerAux_nil, finditerAux_nil]
  | succ n ih =>
    intro f2 s h1 h2
    match s with
    | [] => rw [finditerAux_nil, finditerAux_nil]
    | c :: cs =>
      match f2 with
      | 0 => simp at h2
      | m + 1 =>
        show finditerAux (n + 1) (c :: cs) = finditerAux (m + 1) (c :: cs)
        simp only [finditerAux]
        cases hma : matchAlt (c :: cs) with
        | none =>
          show finditerAux n cs = finditerAux m cs
          exact ih m cs (by simp at h1; omega) (by simp at h2; omega)
        | some r =>
          obtain ⟨k, v, nn⟩ := r
          have hlen : (List.drop (max nn 1) (c :: cs)).length ≤ n := by
            simp only [List.length_drop, List.length_cons]
            simp at h1
            omega
          have hlen2 : (List.drop (max nn 1) (c :: cs)).length ≤ m := by
            simp only [List.length_drop, List.length_cons]
            simp at h2
            omega
          show (k, v) :: finditerAux n (List.drop (max nn 1) (c :: cs)) =
            (k, v) :: finditerAux m (List.drop (max nn 1) (c :: cs))
          rw [ih m _ hlen hlen2]

/-- One finditer step when an alternative matches at the current
position. -/
theorem finditer_cons_some {c : Char} {cs : List Char}
    {k v : String} {n : Nat} (h : matchAlt (c :: cs) = some (k, v, n)) :
    finditer (c :: cs) = (k, v) :: finditer (List.drop (max n 1) (c :: cs)) := by
  show finditerAux (c :: cs).length (c :: cs) = _
  rw [show (c :: cs).length = cs.length + 1 from rfl]
  simp only [finditerAux, h]
  show (k, v) :: finditerAux cs.length (List.drop (max n 1) (c :: cs)) = _
  have h2 : finditerAux cs.length (List.drop (max n 1) (c :: cs)) =
      finditerAux (List.drop (max n 1) (c :: cs)).length
        (List.drop (max n 1) (c :: cs)) := by
    apply finditerAux_fuel
    · simp only [List.length_drop, List.length_cons]; omega
    · exact le_rfl
  rw [h2]
  rfl

/-- One finditer step when no alternative matches: advance one
character. -/
theorem finditer_cons_none {c : Char} {cs : List Char}
    (h : matchAlt (c :: cs) = none) : finditer (c :: cs) = finditer cs := by
  show finditerAux (c :: cs).length (c :: cs) = _
  rw [show (c :: cs).length = cs.length + 1 from rfl]
  simp only [finditerAux, h]
  rfl

theorem mem_dictInsert {kv : String × String} :
    ∀ (d : List (String × String)) (k v : String),
    kv ∈ dictInsert d k v → kv ∈ d ∨ kv = (k, v) := by
  intro d
  induction d with
  | nil =>
    intro k v h
    simp [dictInsert] at h
    exact Or.inr h
  | cons p rest ih =>
    intro k v h
    obtain ⟨k0, v0⟩ := p
    simp only [dictInsert] at h
    by_cases hk : k0 = k
    · rw [if_pos hk] at h
      rcases List.mem_cons.mp h with h1 | h1
      · exact Or.inr h1
      · exact Or.inl (List.mem_cons_of_mem _ h1)
    · rw [if_neg hk] at h
      rcases List.mem_cons.mp h with h1 | h1
      · exact Or.inl (h1 ▸ List.mem_cons_self _ _)
      · rcases ih k v h1 with h2 | h2
        · exact Or.inl (List.mem_cons_of_mem _ h2)
        · exact Or.inr h2

theorem mem_entryStep {kv m : String × String} {d : List (String × String)}
    (h : kv ∈ entryStep d m) : kv ∈ d ∨ (kv = m ∧ m.2 ≠ "") := by
  unfold entryStep at h
  by_cases hm : m.2 = ""
  · rw [if_pos hm] at h
    exact Or.inl h
  · rw [if_neg hm] at h
    rcases mem_dictInsert d m.1 m.2 h with h1 | h1
    · exact Or.inl h1
    · exact Or.inr ⟨h1, hm⟩

theorem mem_foldl_entryStep {kv : String × String} :
    ∀ (ms : List (String × String)) (d : List (String × String)),
    kv ∈ List.foldl entryStep d ms →
    kv ∈ d ∨ (kv ∈ ms ∧ kv.2 ≠ "") := by
  intro ms
  induction ms with
  | nil => intro d h; exact Or.inl h
  | cons m rest ih =>
    intro d h
    rcases ih (entryStep d m) h with h1 | h1
    · rcases mem_entryStep h1 with h2 | h2
      · exact Or.inl h2
      · exact Or.inr ⟨h2.1 ▸ List.mem_cons_self _ _, h2.1 ▸ h2.2⟩
    · exact Or.inr ⟨List.mem_cons_of_mem _ h1.1, h1.2⟩

/-- Every pair of a built entry is one of the non-empty matches. -/
theorem mem_buildEntry {kv : String × String} {ms : List (String × String)}
    (h : kv ∈ buildEntry ms) : kv ∈ ms ∧ kv.2 ≠ "" := by
  rcases mem_foldl_entryStep ms [] h with h1 | h1
  · simp at h1
  · exact h1

theorem dictLookup_dictInsert (k0 v0 k : String) :
    ∀ d : List (String × String),
    dictLookup (dictInsert d k0 v0) k =
      if k0 = k then some v0 else dictLookup d k := by
  intro d
  induction d with
  | nil => rfl
  | cons p rest ih =>
    obtain ⟨k1, v1⟩ := p
    simp only [dictInsert]
    by_cases h1 : k1 = k0
    · rw [if_pos h1]
      subst h1
      simp only [dictLookup]
      by_cases h2 : k1 = k
      · rw [if_pos h2, if_pos h2]
      · rw [if_neg h2, if_neg h2, if_neg h2]
    · rw [if_neg h1]
      simp only [dictLookup, ih]
      by_cases h2 : k1 = k
      · rw [if_pos h2, if_neg (fun hc => h1 (h2.trans hc.symm)), if_pos h2]
      · rw [if_neg h2]
        by_cases h3 : k0 = k
        · rw [if_pos h3, if_pos h3]
        · rw [if_neg h3, if_neg h3, if_neg h2]

/-- Folding the comprehension steps looks up to the rightmost non-empty
match, falling back to the accumulator. -/
theorem dictLookup_foldl_entryStep (k : String) :
    ∀ (ms : List (String × String)) (d : List (String × String)),
    dictLookup (List.foldl entryStep d ms) k =
      match rightmostHit ms k with
      | some v => some v
      | none => dictLookup d k := by
  intro ms
  induction ms with
  | nil => intro d; rfl
  | cons m rest ih =>
    intro d
    obtain ⟨k0, v⟩ := m
    show dictLookup (List.foldl entryStep (entryStep d (k0, v)) rest) k = _
    rw [ih (entryStep d (k0, v))]
    show _ = (match rightmostHit ((k0, v) :: rest) k with
      | some w => some w
      | none => dictLookup d k)
    have hr : rightmostHit ((k0, v) :: rest) k =
        match rightmostHit rest k with
        | some w => some w
        | none => if k0 = k ∧ v ≠ "" then some v else none := rfl
    rw [hr]
    cases hrest : rightmostHit rest k with
    | some w => rfl
    | none =>
      show dictLookup (entryStep d (k0, v)) k =
        match (if k0 = k ∧ v ≠ "" then some v else none) with
        | some w => some w
        | none => dictLookup d k
      simp only [entryStep]
      by_cases hv : v = ""
      · subst hv
        rw [if_pos rfl,
            if_neg (show ¬(k0 = k ∧ ("" : String) ≠ "") from fun hc => hc.2 rfl)]
      · rw [if_neg hv, dictLookup_dictInsert]
        by_cases hk : k0 = k
        · rw [if_pos hk, if_pos ⟨hk, hv⟩]
        · rw [if_neg hk, if_neg (fun hc => hk hc.1)]

/-- The structure of every successfully parsed document. -/
theorem m3u_some_shape {src : String} {doc : List (String × PyVal)}
    (h : m3u_to_json src = some doc) :
    ∃ info u x, splitlinesCh src.data = info :: bodyLines src ∧
      headerSearch info = some (u, x) ∧
      doc = [("url_tvg", PyVal.str (String.mk u)),
             ("x_tvg_url", PyVal.str (String.mk x)),
             ("streams", PyVal.arr ((pairLines (bodyLines src)).map mkEntry))] := by
  unfold m3u_to_json at h
  split at h
  · simp at h
  · next info body hs =>
    split at h
    · simp at h
    · next u x hh =>
      simp only [Option.some.injEq] at h
      have hb : bodyLines src = body := by
        unfold bodyLines; rw [hs]; rfl
      refine ⟨info, u, x, ?_, hh, ?_⟩
      · rw [hs, hb]
      · rw [hb]; exact h.symm

theorem lookupStreams_doc (u x : String) (s : List (List (String × String))) :
    lookupStreams [("url_tvg", PyVal.str u), ("x_tvg_url", PyVal.str x),
      ("streams", PyVal.arr s)] = some s := rfl

/-- Claim C1: the parse succeeds exactly when the first line exists and
matches the header pattern; every failure is the header failure (the
Option result models that no partial document escapes), and a matching
first line guarantees the parse cannot fail. -/
theorem claim_C1_header_iff (src : String) :
    (m3u_to_json src).isSome = headerLineOk src := by
  unfold m3u_to_json headerLineOk
  cases h : splitlinesCh src.data with
  | nil => rfl
  | cons info body =>
    show (match headerSearch info with
      | none => none
      | some (u, x) =>
        some [("url_tvg", PyVal.str (String.mk u)),
              ("x_tvg_url", PyVal.str (String.mk x)),
              ("streams", PyVal.arr ((pairLines body).map mkEntry))]).isSome =
      (headerSearch info).isSome
    cases hh : headerSearch info with
    | none => rfl
    | some r =>
      obtain ⟨u, x⟩ := r
      rfl

/-- Claim C9: when a key is matched at several positions of the two-line
window, the entry binds it to the value of the rightmost (last scanned)
non-empty match: the dict comprehension overwrites earlier captures. -/
theorem claim_C9_overwrite (window : List Char) (k : String) :
    dictLookup (buildEntry (finditer window)) k =
      rightmostHit (finditer window) k := by
  unfold buildEntry
  rw [dictLookup_foldl_entryStep]
  cases h : rightmostHit (finditer window) k <;> rfl

/-- Claim C2: every entry of a parsed document comes from one line-pair
window, and it binds only keys whose alternative produced a non-empty
capture among that window's matches — never an empty string (the
truthiness filter) and never a missing value. -/
theorem claim_C2_entry_keys (src : String) (doc : List (String × PyVal))
    (h : m3u_to_json src = some doc) (s : List (List (String × String)))
    (hs : lookupStreams doc = some s) (e : List (String × String))
    (he : e ∈ s) :
    ∃ pr ∈ pairLines (bodyLines src),
      e = buildEntry (finditer (lineWindow pr)) ∧
      ∀ kv ∈ e, kv.2 ≠ "" ∧ kv ∈ finditer (lineWindow pr) := by
  obtain ⟨info, u, x, hsplit, hh, hdoc⟩ := m3u_some_shape h
  subst hdoc
  rw [lookupStreams_doc] at hs
  have hs2 : s = (pairLines (bodyLines src)).map mkEntry :=
    (Option.some.inj hs).symm
  subst hs2
  obtain ⟨pr, hpr, rfl⟩ := List.mem_map.mp he
  refine ⟨pr, hpr, rfl, ?_⟩
  intro kv hkv
  exact ⟨(mem_buildEntry hkv).2, (mem_buildEntry hkv).1⟩

/-- Claim C3: the streams list pairs the body lines consecutively and
non-overlappingly in source order, has length floor(K/2) for K body
lines, and a trailing unpaired line is dropped without error. -/
theorem claim_C3_pairing (src : String) (doc : List (String × PyVal))
    (h : m3u_to_json src = some doc) :
    ∃ s, lookupStreams doc = some s ∧
      s.length = (bodyLines src).length / 2 ∧
      s = (consPairs (bodyLines src)).map mkEntry := by
  obtain ⟨info, u, x, hsplit, hh, hdoc⟩ := m3u_some_shape h
  subst hdoc
  refine ⟨_, lookupStreams_doc _ _ _, ?_, ?_⟩
  · rw [pairLines_eq_consPairs, List.length_map, consPairs_length]
  · rw [pairLines_eq_consPairs]

/-- Claim C8: every successfully parsed document is an object with
exactly the keys url_tvg, x_tvg_url and streams, in that order, where
streams is the list of entry objects. -/
theorem claim_C8_doc_shape (src : String) (doc : List (String × PyVal))
    (h : m3u_to_json src = some doc) :
    doc.map Prod.fst = ["url_tvg", "x_tvg_url", "streams"] ∧
    ∃ u x s, doc = [("url_tvg", PyVal.str u), ("x_tvg_url", PyVal.str x),
      ("streams", PyVal.arr s)] := by
  obtain ⟨info, u, x, hsplit, hh, hdoc⟩ := m3u_some_shape h
  subst hdoc
  exact ⟨rfl, ⟨String.mk u, String.mk x, _, rfl⟩⟩

theorem claim_C2_entry_keys_witness :
    ∃ pr ∈ pairLines (bodyLines c2src),
      [("ext_inf", "7"), ("tvg_id", "one"), ("tvg_name", "ONE"),
       ("chan_name", "One"), ("stream_url", "http://1.2.3.4:56/stream/one")] =
        buildEntry (finditer (lineWindow pr)) ∧
      ∀ kv ∈ ([("ext_inf", "7"), ("tvg_id", "one"), ("tvg_name", "ONE"),
       ("chan_name", "One"),
       ("stream_url", "http://1.2.3.4:56/stream/one")] :
          List (String × String)),
        kv.2 ≠ "" ∧ kv ∈ finditer (lineWindow pr) :=
  claim_C2_entry_keys c2src
    [("url_tvg", PyVal.str "u"), ("x_tvg_url", PyVal.str "x"),
     ("streams", PyVal.arr [[("ext_inf", "7"), ("tvg_id", "one"),
       ("tvg_name", "ONE"), ("chan_name", "One"),
       ("stream_url", "http://1.2.3.4:56/stream/one")]])]
    (by decide)
    [[("ext_inf", "7"), ("tvg_id", "one"), ("tvg_name", "ONE"),
      ("chan_name", "One"), ("stream_url", "http://1.2.3.4:56/stream/one")]]
    (by decide)
    [("ext_inf", "7"), ("tvg_id", "one"), ("tvg_name", "ONE"),
     ("chan_name", "One"), ("stream_url", "http://1.2.3.4:56/stream/one")]
    (by decide)

theorem claim_C3_pairing_witness :
    ∃ s, lookupStreams [("url_tvg", PyVal.str "u"), ("x_tvg_url", PyVal.str "x"),
        ("streams", PyVal.arr [[]])] = some s ∧
      s.length = (bodyLines c3src).length / 2 ∧
      s = (consPairs (bodyLines c3src)).map mkEntry :=
  claim_C3_pairing c3src
    [("url_tvg", PyVal.str "u"), ("x_tvg_url", PyVal.str "x"),
     ("streams", PyVal.arr [[]])]
    (by decide)

theorem claim_C8_doc_shape_witness :
    ([("url_tvg", PyVal.str "u"), ("x_tvg_url", PyVal.str "x"),
      ("streams", PyVal.arr [[("ext_inf", "1"), ("chan_name", "N"),
        ("stream_url", "http://1.2.3.4:56/stream/n")]])] :
        List (String × PyVal)).map Prod.fst =
      ["url_tvg", "x_tvg_url", "streams"] ∧
    ∃ u x s, ([("url_tvg", PyVal.str "u"), ("x_tvg_url", PyVal.str "x"),
      ("streams", PyVal.arr [[("ext_inf", "1"), ("chan_name", "N"),
        ("stream_url", "http://1.2.3.4:56/stream/n")]])] :
        List (String × PyVal)) =
      [("url_tvg", PyVal.str u), ("x_tvg_url", PyVal.str x),
       ("streams", PyVal.arr s)] :=
  claim_C8_doc_shape c8src
    [("url_tvg", PyVal.str "u"), ("x_tvg_url", PyVal.str "x"),
     ("streams", PyVal.arr [[("ext_inf", "1"), ("chan_name", "N"),
       ("stream_url", "http://1.2.3.4:56/stream/n")]])]
    (by decide)

/-- Claim C10: with no channels and no programs the generator returns
exactly the prolog, DOCTYPE and opening tv tag (generator-info-url being
the origin of the base URL) followed immediately by the closing tv tag:
no channel element and no programme element occurs. -/
theorem claim_C10_empty_guide (url : String) :
    gen_xmltv_xml [] [] url =
      some ("<?xml version=\"1.0\" encoding=\"utf-8\" ?>\n<!DOCTYPE tv SYSTEM \"xmltv.dtd\">\n<tv generator-info-name=\"IPTV\" generator-info-url=\"" ++ furl_origin url ++ "\">\n" ++ "</tv>\n") := by
  show some (xml_header url ++ "" ++ "" ++ xml_footer) = _
  rw [strAppendEmpty (xml_header url)]
  rw [show (xml_header url ++ "" : String) = xml_header url from
    strAppendEmpty (xml_header url)]
  rfl

/-- Claim C4 counterexample: a channel record with three values, or a
program record with four, makes the generator fail (the unpacking raises)
instead of returning a string. -/
theorem claim_C4_total_cex :
    gen_xmltv_xml [["a", "b", "c"]] [] "http://h" = none ∧
    gen_xmltv_xml [] [["a", "b", "c", "d"]] "http://h" = none := by
  constructor
  · rfl
  · rfl

/-- Claim C4 as amended: the generator validates nothing about field
content or order and returns a string for all records of the documented
arities (four values per channel, five or six per program); only a record
of another arity makes it raise. -/
theorem claim_C4_total_amended (channels programs : List (List String))
    (url : String) (hc : ∀ c ∈ channels, c.length = 4)
    (hp : ∀ p ∈ programs, p.length = 5 ∨ p.length = 6) :
    (gen_xmltv_xml channels programs url).isSome = true := by
  have chanSome : ∀ c ∈ channels, (chanElem c).isSome := by
    intro c hcm
    have h4 := hc c hcm
    match c, h4 with
    | [a, b, c2, d], _ => rfl
  have progSome : ∀ p ∈ programs, (progElem p).isSome := by
    intro p hpm
    rcases hp p hpm with h5 | h6
    · match p, h5 with
      | [a, b, c2, d, e], _ => rfl
    · match p, h6 with
      | [a, b, c2, d, e, f], _ => rfl
  have concat : ∀ (f : List String → Option String) (l : List (List String)),
      (∀ x ∈ l, (f x).isSome) → ∀ acc, (xmlConcat f l acc).isSome := by
    intro f l
    induction l with
    | nil => intro _ acc; rfl
    | cons c rest ih =>
      intro hall acc
      have hc2 := hall c (List.mem_cons_self _ _)
      cases hfc : f c with
      | none => rw [hfc] at hc2; simp at hc2
      | some e =>
        show (xmlConcat f (c :: rest) acc).isSome = true
        unfold xmlConcat
        rw [hfc]
        exact ih (fun x hx => hall x (List.mem_cons_of_mem _ hx)) (acc ++ e)
  unfold gen_xmltv_xml
  have h1 := concat chanElem channels chanSome ""
  cases hch : xmlConcat chanElem channels "" with
  | none => rw [hch] at h1; simp at h1
  | some xc =>
    have h2 := concat progElem programs progSome ""
    cases hpr : xmlConcat progElem programs "" with
    | none => rw [hpr] at h2; simp at h2
    | some xp => rfl

theorem claim_C4_total_amended_witness :
    (gen_xmltv_xml [["1", "BBC", "http://x/logo.png", "d"]]
      [["1", "T", "s", "e", "d"], ["1", "T", "s", "e", "d", "i"]]
      "http://host:8080/").isSome = true :=
  claim_C4_total_amended
    [["1", "BBC", "http://x/logo.png", "d"]]
    [["1", "T", "s", "e", "d"], ["1", "T", "s", "e", "d", "i"]]
    "http://host:8080/" (by decide) (by decide)

/-- Claim C6: a six-value program record produces exactly the same
output as the record of its first five values — the icon value is never
emitted — but the emitted programme element carries stray apostrophes
at the end of its lines, unlike the clean element shape the claim
states. -/
theorem claim_C6_program_arity :
    (gen_xmltv_xml [] [["id", "T", "s", "e", "d"]] "http://h:1/p" =
      some ("<?xml version=\"1.0\" encoding=\"utf-8\" ?>\n<!DOCTYPE tv SYSTEM \"xmltv.dtd\">\n<tv generator-info-name=\"IPTV\" generator-info-url=\"http://h:1\">\n    <programme channel=\"id\" start=\"s\" stop=\"e\">'\n        <title lang=\"en\">T</title>'\n        <desc lang=\"en\">d</desc>'\n    </programme>'\n</tv>\n")) ∧
    ∀ (a b c d e icon u : String),
      gen_xmltv_xml [] [[a, b, c, d, e, icon]] u =
        gen_xmltv_xml [] [[a, b, c, d, e]] u := by
  constructor
  · decide
  · intro a b c d e icon u
    rfl

theorem dropLit_append : ∀ (p s : List Char), dropLit p (p ++ s) = some s := by
  intro p
  induction p with
  | nil => intro s; rfl
  | cons c rest ih =>
    intro s
    show dropLit (c :: rest) (c :: (rest ++ s)) = some s
    simp only [dropLit, if_pos rfl]
    exact ih s

theorem dropLit_head_ne {c0 c : Char} (ps s : List Char) (h : c0 ≠ c) :
    dropLit (c0 :: ps) (c :: s) = none := by
  simp only [dropLit, if_neg h]

theorem takeWhile_all_append (p : Char → Bool) :
    ∀ (l r : List Char), (∀ c ∈ l, p c = true) →
    List.takeWhile p (l ++ r) = l ++ List.takeWhile p r := by
  intro l
  induction l with
  | nil => intro r _; rfl
  | cons c rest ih =>
    intro r h
    rw [List.cons_append, List.takeWhile_cons, if_pos (h c (by simp)),
        ih r (fun c2 hc2 => h c2 (List.mem_cons_of_mem _ hc2))]
    rfl

theorem splitlinesAux_no_nl : ∀ (a acc : List Char), (∀ c ∈ a, c ≠ '\n') →
    splitlinesAux a acc = [acc.reverse ++ a] := by
  intro a
  induction a with
  | nil => intro acc _; simp [splitlinesAux]
  | cons c rest ih =>
    intro acc h
    have hc : c ≠ '\n' := h c (by simp)
    show splitlinesAux (c :: rest) acc = _
    simp only [splitlinesAux, if_neg hc]
    rw [ih (c :: acc) (fun c2 hc2 => h c2 (List.mem_cons_of_mem _ hc2))]
    simp [List.reverse_cons, List.append_assoc]

theorem splitlinesAux_break : ∀ (a acc rest : List Char),
    (∀ c ∈ a, c ≠ '\n') → rest ≠ [] →
    splitlinesAux (a ++ '\n' :: rest) acc =
      (acc.reverse ++ a) :: splitlinesAux rest [] := by
  intro a
  induction a with
  | nil =>
    intro acc rest _ hr
    obtain ⟨r, rs, hrr⟩ := List.exists_cons_of_ne_nil hr
    subst hrr
    show splitlinesAux ('\n' :: (r :: rs)) acc = _
    simp only [splitlinesAux, if_pos rfl]
    simp
  | cons c a2 ih =>
    intro acc rest h hr
    have hc : c ≠ '\n' := h c (by simp)
    show splitlinesAux (c :: (a2 ++ '\n' :: rest)) acc = _
    simp only [splitlinesAux, if_neg hc]
    rw [ih (c :: acc) rest (fun c2 hc2 => h c2 (List.mem_cons_of_mem _ hc2)) hr]
    simp [List.reverse_cons, List.append_assoc]

theorem splitlinesCh_ne_nil {l : List Char} (h : l ≠ []) :
    splitlinesCh l = splitlinesAux l [] := by
  cases l with
  | nil => exact absurd rfl h
  | cons c cs => rfl

theorem splitlinesCh_break (a rest : List Char)
    (h : ∀ c ∈ a, c ≠ '\n') (hr : rest ≠ []) :
    splitlinesCh (a ++ '\n' :: rest) = a :: splitlinesCh rest := by
  rw [splitlinesCh_ne_nil (by cases a <;> simp)]
  rw [splitlinesAux_break a [] rest h hr]
  rw [splitlinesCh_ne_nil hr]
  rfl

theorem splitlinesCh_no_nl (a : List Char) (ha : a ≠ [])
    (h : ∀ c ∈ a, c ≠ '\n') : splitlinesCh a = [a] := by
  rw [splitlinesCh_ne_nil ha, splitlinesAux_no_nl a [] h]
  rfl

theorem finditer_ne_nil_some {s : List Char} {k v : String} {n : Nat}
    (hs : s ≠ []) (h : matchAlt s = some (k, v, n)) :
    finditer s = (k, v) :: finditer (List.drop (max n 1) s) := by
  obtain ⟨c, cs, hcc⟩ := List.exists_cons_of_ne_nil hs
  subst hcc
  exact finditer_cons_some h

theorem matchAlt_extinf {s : List Char} {r : String × String × Nat}
    (h : matchExtinf s = some r) : matchAlt s = some r := by
  unfold matchAlt
  rw [h]

theorem matchQuoted_head_ne {key : String} {c0 : Char} {ps : List Char}
    {c : Char} {s : List Char} (h : c0 ≠ c) :
    matchQuoted key (c0 :: ps) (c :: s) = none := by
  unfold matchQuoted
  rw [dropLit_head_ne ps s h]

theorem matchExtinf_comma (r : List Char) : matchExtinf (',' :: r) = none := by
  unfold matchExtinf
  rw [show litEXTINF = '#' :: ['E', 'X', 'T', 'I', 'N', 'F', ':'] from rfl,
      dropLit_head_ne _ _ (by decide)]

theorem matchStreamUrl_comma (r : List Char) :
    matchStreamUrl (',' :: r) = none := by
  unfold matchStreamUrl streamUrlLen litK
  rw [show litHttp = 'h' :: ['t', 't', 'p', ':', '/', '/'] from rfl,
      dropLit_head_ne _ _ (by decide)]

theorem matchAlt_comma (r : List Char) :
    matchAlt (',' :: r) = some ("chan_name", String.mk (r.takeWhile notNl),
      1 + (r.takeWhile notNl).length) := by
  unfold matchAlt
  rw [matchExtinf_comma]
  rw [show litChannelID =
        'c' :: ['h', 'a', 'n', 'n', 'e', 'l', 'I', 'D', '=', '"'] from rfl,
      matchQuoted_head_ne (by decide)]
  rw [show litTvgChno =
        't' :: ['v', 'g', '-', 'c', 'h', 'n', 'o', '=', '"'] from rfl,
      matchQuoted_head_ne (by decide)]
  rw [show litTvgName =
        't' :: ['v', 'g', '-', 'n', 'a', 'm', 'e', '=', '"'] from rfl,
      matchQuoted_head_ne (by decide)]
  rw [show litTvgId = 't' :: ['v', 'g', '-', 'i', 'd', '=', '"'] from rfl,
      matchQuoted_head_ne (by decide)]
  rw [show litTvgLogo =
        't' :: ['v', 'g', '-', 'l', 'o', 'g', 'o', '=', '"'] from rfl,
      matchQuoted_head_ne (by decide)]
  rw [show litGroupTitle =
        'g' :: ['r', 'o', 'u', 'p', '-', 't', 'i', 't', 'l', 'e', '=', '"']
        from rfl,
      matchQuoted_head_ne (by decide)]
  rfl

theorem matchExtinf_digits_comma (d0 : Char) (ds R : List Char)
    (hd : ∀ c ∈ d0 :: ds, c.isDigit = true) :
    matchExtinf (litEXTINF ++ ((d0 :: ds) ++ ',' :: R)) =
      some ("ext_inf", String.mk (d0 :: ds),
        litEXTINF.length + (d0 :: ds).length) := by
  unfold matchExtinf
  rw [dropLit_append]
  show (match List.takeWhile Char.isDigit (d0 :: ds ++ ',' :: R) with
    | [] => none
    | d :: ds2 => some ("ext_inf", String.mk (d :: ds2),
        litEXTINF.length + (d :: ds2).length)) = _
  rw [takeWhile_all_append Char.isDigit (d0 :: ds) (',' :: R) hd]
  rw [List.takeWhile_cons, if_neg (by decide), List.append_nil]

/-- The finditer scan of the window built from a metadata line
EXTINF-digits-comma-name and the fixed URL line: one duration match, one
channel name match (the whole rest of the metadata line, including any
commas inside the name), one stream URL match. -/
theorem finditer_window (d0 : Char) (ds : List Char) (name : String)
    (hd : ∀ c ∈ d0 :: ds, c.isDigit = true)
    (hn : ∀ c ∈ name.data, c ≠ '\n') :
    finditer (litEXTINF ++ ((d0 :: ds) ++ ',' ::
        (name.data ++ '\n' :: urlLine.data))) =
      [("ext_inf", String.mk (d0 :: ds)), ("chan_name", name),
       ("stream_url", urlLine)] := by
  have hR : (name.data ++ '\n' :: urlLine.data).takeWhile notNl = name.data := by
    rw [takeWhile_all_append notNl name.data _ (fun c hc => by
      simp only [notNl, bne_iff_ne, ne_eq]
      exact hn c hc)]
    rw [List.takeWhile_cons, if_neg (by decide), List.append_nil]
  have hma : matchAlt (litEXTINF ++ ((d0 :: ds) ++ ',' ::
      (name.data ++ '\n' :: urlLine.data))) =
      some ("ext_inf", String.mk (d0 :: ds),
        litEXTINF.length + (d0 :: ds).length) :=
    matchAlt_extinf (matchExtinf_digits_comma d0 ds _ hd)
  rw [finditer_ne_nil_some (by simp [litEXTINF]) hma]
  rw [show litEXTINF.length = 8 from rfl]
  rw [max_eq_left (by omega)]
  have hdrop : List.drop (8 + (d0 :: ds).length)
      (litEXTINF ++ ((d0 :: ds) ++ ',' :: (name.data ++ '\n' :: urlLine.data)))
      = ',' :: (name.data ++ '\n' :: urlLine.data) := by
    rw [← List.append_assoc]
    rw [show (8 : Nat) + (d0 :: ds).length = (litEXTINF ++ (d0 :: ds)).length
      from by simp [litEXTINF]; omega]
    exact List.drop_left _ _
  rw [hdrop]
  rw [finditer_cons_some (matchAlt_comma (name.data ++ '\n' :: urlLine.data))]
  rw [hR, strMkData name]
  rw [max_eq_left (by omega)]
  have hdrop2 : List.drop (1 + name.data.length)
      (',' :: (name.data ++ '\n' :: urlLine.data)) = '\n' :: urlLine.data := by
    rw [Nat.add_comm, List.drop_succ_cons]
    exact List.drop_left _ _
  rw [hdrop2]
  rw [finditer_cons_none (by decide)]
  rw [show finditer urlLine.data = [("stream_url", urlLine)] from by decide]

/-- Evaluation rule for m3u_to_json from the computed line split and
header search. -/
theorem m3u_eval {src : String} {info : List Char} {body : List (List Char)}
    {u x : List Char} (hs : splitlinesCh src.data = info :: body)
    (hh : headerSearch info = some (u, x)) :
    m3u_to_json src = some [("url_tvg", PyVal.str (String.mk u)),
      ("x_tvg_url", PyVal.str (String.mk x)),
      ("streams", PyVal.arr ((pairLines body).map mkEntry))] := by
  unfold m3u_to_json
  rw [hs]
  show (match headerSearch info with
    | none => none
    | some (u, x) => some [("url_tvg", PyVal.str (String.mk u)),
        ("x_tvg_url", PyVal.str (String.mk x)),
        ("streams", PyVal.arr ((pairLines body).map mkEntry))]) = _
  rw [hh]

theorem parseEntries_eval {src : String} {doc : List (String × PyVal)}
    (h : m3u_to_json src = some doc) :
    parseEntries src = (lookupStreams doc).getD [] := by
  unfold parseEntries
  rw [h]

/-- The line split of the parametric one-pair playlist. -/
theorem split_mkSrc (d0 : Char) (ds : List Char) (name : String)
    (hd : ∀ c ∈ d0 :: ds, c.isDigit = true)
    (hn : ∀ c ∈ name.data, c ≠ '\n') :
    splitlinesCh (mkSrc (d0 :: ds) name).data =
      [hdrLine.data, litEXTINF ++ ((d0 :: ds) ++ ',' :: name.data),
       urlLine.data] := by
  have hdata : (mkSrc (d0 :: ds) name).data =
      hdrLine.data ++ '\n' :: ((litEXTINF ++ ((d0 :: ds) ++ ',' :: name.data))
        ++ '\n' :: urlLine.data) := by
    unfold mkSrc
    simp only [strDataAppend,
      show ("\n" : String).data = ['\n'] from rfl,
      show ("#EXTINF:" : String).data = litEXTINF from rfl,
      show ("," : String).data = [','] from rfl,
      show (String.mk (d0 :: ds)).data = d0 :: ds from rfl,
      List.append_assoc, List.cons_append, List.singleton_append,
      List.nil_append]
    simp only [show litEXTINF = ['#', 'E', 'X', 'T', 'I', 'N', 'F', ':']
        from rfl,
      List.cons_append, List.nil_append]
  rw [hdata]
  rw [splitlinesCh_break _ _ (by decide) (by simp [litEXTINF])]
  rw [splitlinesCh_break _ _ ?hline (by decide)]
  case hline =>
    intro c hc
    rcases List.mem_append.mp hc with h1 | h2
    · exact (show ∀ x ∈ litEXTINF, x ≠ '\n' from by decide) c h1
    · rcases List.mem_append.mp h2 with h3 | h4
      · have hdig := hd c h3
        intro hcn
        rw [hcn] at hdig
        exact absurd hdig (by decide)
      · rcases List.mem_cons.mp h4 with h5 | h6
        · rw [h5]; decide
        · exact hn c h6
  rw [splitlinesCh_no_nl urlLine.data (by decide) (by decide)]

/-- Full evaluation of the parser on the parametric one-pair playlist:
the single entry binds ext_inf to the digit run, chan_name to everything
after the first comma of the metadata line, and stream_url to the URL
line. -/
theorem parse_mkSrc (d0 : Char) (ds : List Char) (name : String)
    (hd : ∀ c ∈ d0 :: ds, c.isDigit = true)
    (hn : ∀ c ∈ name.data, c ≠ '\n') (hne : name ≠ "") :
    parseEntries (mkSrc (d0 :: ds) name) =
      [[("ext_inf", String.mk (d0 :: ds)), ("chan_name", name),
        ("stream_url", urlLine)]] := by
  have hsplit := split_mkSrc d0 ds name hd hn
  have hm := @m3u_eval (mkSrc (d0 :: ds) name) hdrLine.data
    [litEXTINF ++ ((d0 :: ds) ++ ',' :: name.data), urlLine.data]
    ['u'] ['x'] hsplit (by decide)
  rw [parseEntries_eval hm, lookupStreams_doc]
  show [buildEntry (finditer ((litEXTINF ++ ((d0 :: ds) ++ ',' :: name.data))
    ++ '\n' :: urlLine.data))] = _
  have hw : (litEXTINF ++ ((d0 :: ds) ++ ',' :: name.data))
      ++ '\n' :: urlLine.data =
      litEXTINF ++ ((d0 :: ds) ++ ',' ::
        (name.data ++ '\n' :: urlLine.data)) := by
    simp only [List.append_assoc, List.cons_append]
  rw [hw, finditer_window d0 ds name hd hn]
  have hmk : String.mk (d0 :: ds) ≠ "" := fun hc =>
    List.cons_ne_nil d0 ds (strMk_eq_empty.mp hc)
  have hurl : (urlLine : String) ≠ "" := by decide
  have b1 : entryStep [] ("ext_inf", String.mk (d0 :: ds)) =
      [("ext_inf", String.mk (d0 :: ds))] := by
    dsimp only [entryStep]
    rw [if_neg hmk]
    rfl
  have b2 : entryStep [("ext_inf", String.mk (d0 :: ds))] ("chan_name", name) =
      [("ext_inf", String.mk (d0 :: ds)), ("chan_name", name)] := by
    dsimp only [entryStep]
    rw [if_neg hne]
    dsimp only [dictInsert]
    rw [if_neg (show ¬("ext_inf" : String) = "chan_name" from by decide)]
  have b3 : entryStep [("ext_inf", String.mk (d0 :: ds)), ("chan_name", name)]
      ("stream_url", urlLine) =
      [("ext_inf", String.mk (d0 :: ds)), ("chan_name", name),
       ("stream_url", urlLine)] := by
    dsimp only [entryStep]
    rw [if_neg hurl]
    dsimp only [dictInsert]
    rw [if_neg (show ¬("ext_inf" : String) = "stream_url" from by decide)]
    rw [if_neg (show ¬("chan_name" : String) = "stream_url" from by decide)]
  show [List.foldl entryStep [] [("ext_inf", String.mk (d0 :: ds)),
    ("chan_name", name), ("stream_url", urlLine)]] = _
  rw [List.foldl_cons, b1, List.foldl_cons, b2, List.foldl_cons, b3,
    List.foldl_nil]

/-- Claim C5 counterexample: on a metadata line beginning EXTINF:-1 the
digit alternative does not match, so the parsed entry carries no ext_inf
key at all, while the parse succeeds and binds the other keys. -/
theorem claim_C5_extinf_cex :
    dictLookup ((parseEntries c5src).headD []) "ext_inf" = none ∧
    (parseEntries c5src).headD [] =
      [("chan_name", "Name"),
       ("stream_url", "http://1.2.3.4:56/stream/go")] := by
  constructor
  · decide
  · decide

/-- Claim C5 as amended: only a nonnegative duration, a nonempty digit
run, matches the EXTINF alternative, and those digits are passed through
unchanged as the ext_inf value; a negative integer such as -1 does not
match and the key is omitted. -/
theorem claim_C5_extinf_amended (d0 : Char) (ds : List Char) (name : String)
    (hd : ∀ c ∈ d0 :: ds, c.isDigit = true)
    (hn : ∀ c ∈ name.data, c ≠ '\n') (hne : name ≠ "") :
    dictLookup ((parseEntries (mkSrc (d0 :: ds) name)).headD [])
      "ext_inf" = some (String.mk (d0 :: ds)) := by
  rw [parse_mkSrc d0 ds name hd hn hne]
  rfl

theorem claim_C5_extinf_amended_witness :
    dictLookup ((parseEntries (mkSrc ('4' :: ['2']) "News")).headD [])
      "ext_inf" = some (String.mk ('4' :: ['2'])) :=
  claim_C5_extinf_amended '4' ['2'] "News" (by decide) (by decide) (by decide)

/-- Claim C7 counterexample: with the metadata line
EXTINF:0,Hello, World the channel name is everything after the first
comma, Hello, World, not the text after the last comma. -/
theorem claim_C7_chan_name_cex :
    dictLookup ((parseEntries c7src).headD []) "chan_name" =
      some "Hello, World" ∧
    dictLookup ((parseEntries c7src).headD []) "chan_name" ≠
      some " World" := by
  constructor
  · decide
  · decide

/-- Claim C7 as amended: chanName is the text from just after the first
comma the scanner reaches on the metadata line to the end of that line;
commas inside that text are part of the value, so it is not in general
the text after the last comma. -/
theorem claim_C7_chan_name_amended (d0 : Char) (ds : List Char)
    (name : String) (hd : ∀ c ∈ d0 :: ds, c.isDigit = true)
    (hn : ∀ c ∈ name.data, c ≠ '\n') (hne : name ≠ "") :
    dictLookup ((parseEntries (mkSrc (d0 :: ds) name)).headD [])
      "chan_name" = some name := by
  rw [parse_mkSrc d0 ds name hd hn hne]
  rfl

theorem claim_C7_chan_name_amended_witness :
    dictLookup ((parseEntries (mkSrc ('0' :: []) "Hello, World")).headD [])
      "chan_name" = some "Hello, World" :=
  claim_C7_chan_name_amended '0' [] "Hello, World" (by decide) (by decide)
    (by decide)
